import Mathlib

/-!
Verification of the chess game parser core (`app/common/game_parser.py`).

Python strings are modelled as lists of characters (`PyStr`), with the Python
string operations used by the source (`split`, `strip`, `lower`, `join`,
substring membership) reproduced faithfully.  The SQLAlchemy tables are
modelled as lists of rows inside an explicit `DB` state, and the session
operations of the source become state transitions on `DB`.
-/

set_option maxRecDepth 4000

namespace ChessPi

/-- Python string model: a list of characters. -/
abbrev PyStr := List Char

/-- ASCII whitespace recognised by Python `str.split(None)` / `str.strip()`. -/
def isPyWs (c : Char) : Bool :=
  c == ' ' || c == '\t' || c == '\n' || c == '\r' || c == '\x0b' || c == '\x0c'

/-- True when every character of the string is whitespace. -/
def allWs (s : PyStr) : Bool := s.all isPyWs

/-- Python `str.lstrip()`: drop leading whitespace. -/
def lstrip (s : PyStr) : PyStr := s.dropWhile isPyWs

/-- Python `str.rstrip()`: drop trailing whitespace. -/
def rstrip : PyStr → PyStr
  | [] => []
  | c :: s => if isPyWs c && allWs s then [] else c :: rstrip s

/-- Python `str.strip()`: drop whitespace at both ends. -/
def strip (s : PyStr) : PyStr := rstrip (lstrip s)

/-- Python `str.lower()` (ASCII range, the only one exercised by the data). -/
def lower (s : PyStr) : PyStr := s.map Char.toLower

/-- Python substring membership `sub in s`. -/
def pyContains (sub s : PyStr) : Bool :=
  (List.range (s.length + 1)).any (fun i => sub.isPrefixOf (s.drop i))

/-- Python `s.split(sep)` for a one-character separator: splits at every
occurrence, keeping empty segments (`"".split(",") == [""]`). -/
def splitOnChar (sep : Char) : PyStr → List PyStr
  | [] => [[]]
  | c :: cs =>
    if c == sep then [] :: splitOnChar sep cs
    else
      match splitOnChar sep cs with
      | [] => [[c]]
      | w :: ws => (c :: w) :: ws

/-- Python `sep.join(xs)` for a one-character separator. -/
def joinChar (sep : Char) : List PyStr → PyStr
  | [] => []
  | [x] => x
  | x :: xs => x ++ sep :: joinChar sep xs

/-- Worker for Python `str.split(None)`: accumulates the current word
(reversed) and drops whitespace runs. -/
def splitNoneAux : PyStr → PyStr → List PyStr
  | [], acc => if acc.isEmpty then [] else [acc.reverse]
  | c :: cs, acc =>
    if isPyWs c then
      if acc.isEmpty then splitNoneAux cs []
      else acc.reverse :: splitNoneAux cs []
    else splitNoneAux cs (c :: acc)

/-- Python `str.split(None)`: split on whitespace runs, discarding empties. -/
def splitNone (s : PyStr) : List PyStr := splitNoneAux s []

/-! ## Data model (`app/models.py` rows as used by `game_parser.py`) -/

/-- A `models.Player` row: surrogate id plus first and last name columns. -/
structure Player where
  id : Nat
  first_name : PyStr
  last_name : PyStr
deriving DecidableEq, Repr

/-- Modelled from the spec: `models.Player.full_name` is not under `src/`
(only `game_parser.py` is); the spec describes it as the player's formatted
full display name, a "First Last" form. -/
def full_name (p : Player) : PyStr := p.first_name ++ ' ' :: p.last_name

/-- A `models.Pairing` row linking a player to a game with a color tag. -/
structure Pairing where
  game_id : Nat
  player_id : Nat
  color : PyStr
deriving DecidableEq, Repr

/-- The color tag strings used by the source. -/
def whiteTag : PyStr := 'w' :: 'h' :: 'i' :: 't' :: 'e' :: []

/-- The black color tag. -/
def blackTag : PyStr := 'b' :: 'l' :: 'a' :: 'c' :: 'k' :: []

/-- Result of `GameParser.__parse_player_name`: a dict with keys
`first_name` and `last_name`. -/
structure NameDict where
  first_name : PyStr
  last_name : PyStr
deriving DecidableEq, Repr

/-- `GameParser.__parse_player_name`: `name_string.split(',')`, then
`name_array[1].strip()` if the array has more than one element else `''`
for the first name, and `name_array[0].strip()` for the last name.
Python `split` on a character always returns a nonempty list, so the
first pattern is unreachable. -/
def parse_player_name (s : PyStr) : NameDict :=
  match splitOnChar ',' s with
  | [] => { first_name := [], last_name := [] }
  | [l] => { first_name := [], last_name := strip l }
  | l :: f :: _ => { first_name := strip f, last_name := strip l }

/-- The dynamically typed `moves` attribute of a game record: a stored
delimited string, or the list it is replaced by in `format_game`'s pgn
branch (`game.moves = game.moves.split(',')`). -/
inductive MovesField where
  | strv : PyStr → MovesField
  | listv : List PyStr → MovesField
deriving DecidableEq, Repr

/-- A fetched `models.Game` record as `format_game` sees it: the stored
columns, the `players` relationship, and the attributes Python assigns
dynamically during formatting (absent, i.e. `none`, on a fresh fetch). -/
structure GameRec where
  id : Nat
  event : PyStr
  site : PyStr
  date : PyStr
  match_round : PyStr
  result : PyStr
  white_elo : PyStr
  black_elo : PyStr
  moves : MovesField
  eco : PyStr
  players : List Player
  white : Option PyStr := none
  black : Option PyStr := none
  round : Option PyStr := none
  whiteelo : Option PyStr := none
  blackelo : Option PyStr := none
  annotator : Option PyStr := none
  plycount : Option PyStr := none
  timecontrol : Option PyStr := none
  time : Option PyStr := none
  termination : Option PyStr := none
  mode : Option PyStr := none
  fen : Option PyStr := none
deriving DecidableEq, Repr

/-- The dict built by `__unparse_players_with_color`; `none` in a slot
models an absent dict key. -/
structure ColoredPlayers where
  white : Option Player := none
  black : Option Player := none
deriving DecidableEq, Repr

/-- `models.Pairing.query.filter_by(player_id=..., game_id=...).first()`. -/
def pairingFirst (db : List Pairing) (pid gid : Nat) : Option Pairing :=
  (db.filter (fun p => p.player_id == pid && p.game_id == gid)).head?

/-- `GameParser.__unparse_players_with_color`.  `none` models a raised
Python exception: `IndexError` when `players` has fewer than two entries,
or `AttributeError` when `.color` is read off a `None` query result.
When neither pairing is white the function returns the empty dict. -/
def unparse_players_with_color (db : List Pairing) (players : List Player)
    (gid : Nat) : Option ColoredPlayers :=
  match players with
  | p0 :: p1 :: _ =>
    match pairingFirst db p0.id gid with
    | none => none
    | some pr1 =>
      if pr1.color = whiteTag then
        some { white := some p0, black := some p1 }
      else
        match pairingFirst db p1.id gid with
        | none => none
        | some pr2 =>
          if pr2.color = whiteTag then
            some { white := some p1, black := some p0 }
          else
            some { white := none, black := none }
  | _ => none

/-- The flat dict built by `format_game`'s dict/json branch; the structure
fields are exactly the ten keys the source assigns. -/
structure GameDict where
  event : PyStr
  site : PyStr
  date : PyStr
  round : PyStr
  white_elo : PyStr
  black_elo : PyStr
  white : PyStr
  black : PyStr
  moves : MovesField
  eco : PyStr
deriving DecidableEq, Repr

/-- What `format_game` returns: the flat dict, or the mutated record that
is handed to `pgn.dumps` (the textual writer is an external codec). -/
inductive FormatResult where
  | dict : GameDict → FormatResult
  | pgnRec : GameRec → FormatResult
deriving DecidableEq, Repr

/-- The `'dict'` return type string. -/
def dictTag : PyStr := 'd' :: 'i' :: 'c' :: 't' :: []

/-- The `'json'` return type string. -/
def jsonTag : PyStr := 'j' :: 's' :: 'o' :: 'n' :: []

/-- The `'pgn'` return type string (the default). -/
def pgnTag : PyStr := 'p' :: 'g' :: 'n' :: []

/-- `GameParser.format_game`, returning the produced value together with
the post-call state of the game record (the source mutates `game` in
place).  `none` models a raised exception: a failure inside
`__unparse_players_with_color`, a `KeyError` on `players['white']` /
`players['black']` when that dict came back empty, or an
`AttributeError` when `game.moves` is already a list and `.split` is
called on it. -/
def format_game (db : List Pairing) (g : GameRec) (return_type : PyStr) :
    Option (FormatResult × GameRec) :=
  match unparse_players_with_color db g.players g.id with
  | none => none
  | some cps =>
    match cps.white, cps.black with
    | some w, some b =>
      let g1 := { g with white := some (full_name w), black := some (full_name b) }
      if return_type = dictTag ∨ return_type = jsonTag then
        some (FormatResult.dict
          { event := g1.event, site := g1.site, date := g1.date,
            round := g1.match_round, white_elo := g1.white_elo,
            black_elo := g1.black_elo, white := full_name w,
            black := full_name b, moves := g1.moves, eco := g1.eco }, g1)
      else
        match g1.moves with
        | MovesField.strv m =>
          let g2 := { g1 with
            moves := MovesField.listv (splitOnChar ',' m),
            round := some g1.match_round,
            whiteelo := some g1.white_elo,
            blackelo := some g1.black_elo,
            annotator := some [], plycount := some [],
            timecontrol := some [], time := some [],
            termination := some [], mode := some [], fen := some [] }
          some (FormatResult.pgnRec g2, g2)
        | MovesField.listv _ => none
    | _, _ => none

/-- The request-args dict of `get_games` / `__game_match`: optional `name`
and `eco` keys. -/
structure RequestArgs where
  name : Option PyStr := none
  eco : Option PyStr := none
deriving DecidableEq, Repr

/-- The `eco` check at the end of `GameParser.__game_match`. -/
def eco_match (g : GameRec) (args : RequestArgs) : Bool :=
  match args.eco with
  | some e => lower e == lower g.eco
  | none => true

/-- `GameParser.__game_match`.  `none` models an exception escaping from
color resolution (including the `KeyError` on an empty colored-players
dict).  Note the source lowercases the two full names but not the
criterion value. -/
def game_match (db : List Pairing) (g : GameRec) (args : RequestArgs) :
    Option Bool :=
  match args.name with
  | some n =>
    match unparse_players_with_color db g.players g.id with
    | none => none
    | some cps =>
      match cps.white, cps.black with
      | some w, some b =>
        if !pyContains n (lower (full_name w)) &&
            !pyContains n (lower (full_name b)) then
          some false
        else
          some (eco_match g args)
      | _, _ => none
  | none => some (eco_match g args)

/-! ## Ingestion model (`add_games` and its helpers) -/

/-- A game object produced by `pgn.loads` (external codec): flat string
fields plus the ordered move list. -/
structure ParsedGame where
  event : PyStr
  site : PyStr
  date : PyStr
  round : PyStr
  result : PyStr
  white : PyStr
  black : PyStr
  whiteelo : PyStr
  blackelo : PyStr
  moves : List PyStr
  eco : PyStr
deriving DecidableEq, Repr

/-- A stored `models.Game` row, as created by `__add_game`. -/
structure GameRow where
  id : Nat
  event : PyStr
  site : PyStr
  date : PyStr
  match_round : PyStr
  result : PyStr
  white_elo : PyStr
  black_elo : PyStr
  moves : PyStr
  eco : PyStr
deriving DecidableEq, Repr

/-- The database state: the three tables plus the autoincrement counters
(SQLAlchemy surrogate ids start at 1). -/
structure DB where
  players : List Player
  games : List GameRow
  pairings : List Pairing
  next_player_id : Nat := 1
  next_game_id : Nat := 1
deriving DecidableEq, Repr

/-- The empty database. -/
def DB.empty : DB := { players := [], games := [], pairings := [] }

/-- `GameParser.player_in_db` on an already-parsed name dict:
`Player.query.filter_by(first_name=..., last_name=...)`, then the first
row's id if the count is positive, else `None`. -/
def player_in_db (db : DB) (nd : NameDict) : Option Nat :=
  ((db.players.filter (fun p =>
    p.first_name == nd.first_name && p.last_name == nd.last_name)).head?).map
      Player.id

/-- `GameParser.player_in_db` with `stringified=True`: the raw name string
is first parsed by `__parse_player_name`. -/
def player_in_db_stringified (db : DB) (s : PyStr) : Option Nat :=
  player_in_db db (parse_player_name s)

/-- Insert a fresh player row, drawing the next surrogate id. -/
def addPlayerRow (db : DB) (nd : NameDict) : DB :=
  { db with
    players := db.players ++
      [{ id := db.next_player_id, first_name := nd.first_name,
         last_name := nd.last_name }],
    next_player_id := db.next_player_id + 1 }

/-- `GameParser.__add_players`: parse both names, look both up in the
pre-existing table, then insert whichever was not found and commit.
Both lookups read the state as it was before either insert, exactly as
the source performs both `player_in_db` calls before any `session.add`.
Returns the new state and the white and black player ids. -/
def add_players (db : DB) (white black : PyStr) : DB × Nat × Nat :=
  let wp := parse_player_name white
  let bp := parse_player_name black
  let white_id0 := player_in_db db wp
  let black_id0 := player_in_db db bp
  let stateW :=
    match white_id0 with
    | some i => (db, i)
    | none => (addPlayerRow db wp, db.next_player_id)
  let db1 := stateW.fst
  let stateB :=
    match black_id0 with
    | some i => (db1, i)
    | none => (addPlayerRow db1 bp, db1.next_player_id)
  (stateB.fst, stateW.snd, stateB.snd)

/-- The delimited storage form of a move list:
`(',').join(game.moves)` in `__add_game`. -/
def stored_moves (moves : List PyStr) : PyStr := joinChar ',' moves

/-- The move list recovered from storage:
`game.moves.split(',')` in `format_game`. -/
def displayed_moves (s : PyStr) : List PyStr := splitOnChar ',' s

/-- `GameParser.__add_game`: build the row with the comma-joined move
string, add it, commit, and return its id. -/
def add_game (db : DB) (g : ParsedGame) : DB × Nat :=
  let row : GameRow :=
    { id := db.next_game_id, event := g.event, site := g.site,
      date := g.date, match_round := g.round, result := g.result,
      white_elo := g.whiteelo, black_elo := g.blackelo,
      moves := stored_moves g.moves, eco := g.eco }
  ({ db with
     games := db.games ++ [row],
     next_game_id := db.next_game_id + 1 }, db.next_game_id)

/-- `GameParser.__add_pairings`: the black pairing is added first, then
the white one, then the commit. -/
def add_pairings (db : DB) (gid wid bid : Nat) : DB :=
  { db with pairings := db.pairings ++
      [{ game_id := gid, player_id := bid, color := blackTag },
       { game_id := gid, player_id := wid, color := whiteTag }] }

/-- One iteration of the `add_games` loop for a single parsed game. -/
def add_games_step (db : DB) (g : ParsedGame) : DB :=
  let pw := add_players db g.white g.black
  let gw := add_game pw.fst g
  add_pairings gw.fst gw.snd pw.snd.fst pw.snd.snd

/-- `GameParser.add_games`: process the parsed games strictly in order
(a `None`/empty parse means no iterations). -/
def add_games (db : DB) (games : List ParsedGame) : DB :=
  games.foldl add_games_step db

/-- A per-game failure schedule for the three commits the source issues
per game: the `__add_players` commit, the `__add_game` commit and the
`__add_pairings` commit. -/
structure FailSpec where
  players_ok : Bool
  game_ok : Bool
  pairings_ok : Bool
deriving DecidableEq, Repr

/-- One `add_games` iteration under a failure schedule.  A failed commit
rolls back only the rows staged since the previous commit, so the error
value carries the database state that remains observable: the source has
no try/except, and each of the three helpers commits separately. -/
def add_games_step_f (fs : FailSpec) (db : DB) (g : ParsedGame) :
    Except DB DB :=
  if !fs.players_ok then Except.error db
  else
    let pw := add_players db g.white g.black
    if !fs.game_ok then Except.error pw.fst
    else
      let gw := add_game pw.fst g
      if !fs.pairings_ok then Except.error gw.fst
      else Except.ok (add_pairings gw.fst gw.snd pw.snd.fst pw.snd.snd)

/-- `add_games` under a failure schedule: the first raised storage error
propagates and the remaining games are not processed. -/
def add_games_f (fs : FailSpec) (db : DB) : List ParsedGame → Except DB DB
  | [] => Except.ok db
  | g :: rest =>
    match add_games_step_f fs db g with
    | Except.error e => Except.error e
    | Except.ok db1 => add_games_f fs db1 rest

/-! ## Constructor text normalization (`GameParser.__init__`) -/

/-- The text stored in `self.pgn` by `__init__`:
`'\n'.join(pgn_string.split(delimiter))` with `delimiter=None`, guarded
by Python truthiness (`if pgn_string:`), so the empty string behaves
like no string at all. -/
def init_pgn (pgn_string : Option PyStr) : Option PyStr :=
  match pgn_string with
  | none => none
  | some s => if s.isEmpty then none else some (joinChar '\n' (splitNone s))

/-- Follows the spec claim's words: replace every maximal run of
whitespace by a single newline, walking the string with a flag that
remembers whether the current character extends a run already replaced. -/
def collapseWsAux : PyStr → Bool → PyStr
  | [], _ => []
  | c :: cs, inRun =>
    if isPyWs c then
      if inRun then collapseWsAux cs true
      else '\n' :: collapseWsAux cs true
    else c :: collapseWsAux cs false

/-- Follows the spec claim's words: drop leading and trailing whitespace,
then replace every maximal interior whitespace run by one newline. -/
def spec_ws_transform (s : PyStr) : PyStr := collapseWsAux (strip s) false

/-- The (first,last) name pairs of the player table, in row order. -/
def playerNames (db : DB) : List (PyStr × PyStr) :=
  db.players.map (fun p => (p.first_name, p.last_name))

/-- The stored-form invariant on a game record: its `moves` attribute is
still the single delimited string of the database schema. -/
def stored_form (g : GameRec) : Bool :=
  match g.moves with
  | MovesField.strv _ => true
  | MovesField.listv _ => false

/-- The record a pgn-branch `format_game` call leaves behind: the split
move list and the dynamically assigned display and placeholder fields. -/
def pgn_ready (g : GameRec) (m : PyStr) (w b : Player) : GameRec :=
  { g with
    moves := MovesField.listv (displayed_moves m),
    white := some (full_name w), black := some (full_name b),
    round := some g.match_round, whiteelo := some g.white_elo,
    blackelo := some g.black_elo, annotator := some [], plycount := some [],
    timecontrol := some [], time := some [], termination := some [],
    mode := some [], fen := some [] }

/-! ## Concrete example data -/

/-- Example player, paired as white in game 1. -/
def karpov : Player :=
  { id := 1, first_name := "Anatoly".toList, last_name := "Karpov".toList }

/-- Example player, paired as black in game 1. -/
def kasparov : Player :=
  { id := 2, first_name := "Garry".toList, last_name := "Kasparov".toList }

/-- Well-formed pairings for game 1: one white, one black. -/
def examplePairings : List Pairing :=
  [{ game_id := 1, player_id := 1, color := whiteTag },
   { game_id := 1, player_id := 2, color := blackTag }]

/-- Malformed pairings for game 1: both rows carry color black. -/
def bothBlackPairings : List Pairing :=
  [{ game_id := 1, player_id := 1, color := blackTag },
   { game_id := 1, player_id := 2, color := blackTag }]

/-- Example fetched game record with a two-move delimited move string. -/
def exampleGameRec : GameRec :=
  { id := 1, event := "WCh".toList, site := "Moscow".toList,
    date := "1985".toList, match_round := "16".toList,
    result := "0-1".toList, white_elo := "2720".toList,
    black_elo := "2700".toList,
    moves := MovesField.strv "e4,e5".toList, eco := "C65".toList,
    players := [karpov, kasparov] }

/-- Example parsed game whose white and black slots carry the same name. -/
def selfPairedGame : ParsedGame :=
  { event := "Open".toList, site := "X".toList, date := "2020".toList,
    round := "1".toList, result := "1-0".toList,
    white := "Smith, John".toList, black := "Smith, John".toList,
    whiteelo := "2000".toList, blackelo := "2000".toList,
    moves := ["e4".toList], eco := "B00".toList }

/-- Two parsed games sharing their white player's name across the batch. -/
def batchGame1 : ParsedGame :=
  { event := "Open".toList, site := "X".toList, date := "2020".toList,
    round := "1".toList, result := "1-0".toList,
    white := "Smith, John".toList, black := "Doe, Jane".toList,
    whiteelo := "2000".toList, blackelo := "1900".toList,
    moves := ["e4".toList], eco := "B00".toList }

/-- Second batch game, repeating `batchGame1`'s white player by name. -/
def batchGame2 : ParsedGame :=
  { event := "Open".toList, site := "X".toList, date := "2020".toList,
    round := "2".toList, result := "0-1".toList,
    white := "Smith, John".toList, black := "Roe, Rick".toList,
    whiteelo := "2000".toList, blackelo := "1800".toList,
    moves := ["d4".toList], eco := "D00".toList }

/-! ## Helper lemmas about the Python string operations -/

theorem splitOnChar_no_sep_case (sep : Char) :
    ∀ s : PyStr, s.dropWhile (fun c => c != sep) = [] →
      splitOnChar sep s = [s.takeWhile (fun c => c != sep)]
  | [], _ => rfl
  | c :: cs, h => by
    by_cases hc : c = sep
    · subst hc
      simp [List.dropWhile_cons] at h
    · have hb : (c == sep) = false := by simp [hc]
      have ht : (c != sep) = true := by simp [hc]
      have h' : cs.dropWhile (fun c => c != sep) = [] := by
        simpa [List.dropWhile_cons, ht] using h
      simp [splitOnChar, hb, splitOnChar_no_sep_case sep cs h',
        List.takeWhile_cons, ht]

theorem splitOnChar_sep_case (sep : Char) :
    ∀ (s : PyStr) (d : Char) (r : PyStr),
      s.dropWhile (fun c => c != sep) = d :: r →
      splitOnChar sep s = s.takeWhile (fun c => c != sep) :: splitOnChar sep r
  | [], d, r, h => by simp [List.dropWhile] at h
  | c :: cs, d, r, h => by
    by_cases hc : c = sep
    · subst hc
      have hf : ((c : Char) != c) = false := by simp
      have h' : c :: cs = d :: r := by
        simpa [List.dropWhile_cons, hf] using h
      cases h'
      simp [splitOnChar, List.takeWhile_cons, hf]
    · have hb : (c == sep) = false := by simp [hc]
      have ht : (c != sep) = true := by simp [hc]
      have h' : cs.dropWhile (fun c => c != sep) = d :: r := by
        simpa [List.dropWhile_cons, ht] using h
      simp [splitOnChar, hb, splitOnChar_sep_case sep cs d r h',
        List.takeWhile_cons, ht]

theorem splitOnChar_head (sep : Char) (s : PyStr) :
    ∃ rest, splitOnChar sep s =
      s.takeWhile (fun c => c != sep) :: rest := by
  cases hdw : s.dropWhile (fun c => c != sep) with
  | nil => exact ⟨[], splitOnChar_no_sep_case sep s hdw⟩
  | cons d r => exact ⟨splitOnChar sep r, splitOnChar_sep_case sep s d r hdw⟩

theorem splitOnChar_of_no_sep (sep : Char) :
    ∀ w : PyStr, (∀ c ∈ w, c ≠ sep) → splitOnChar sep w = [w]
  | [], _ => rfl
  | c :: cs, h => by
    have hc : c ≠ sep := h c (List.mem_cons_self c cs)
    have hb : (c == sep) = false := by simp [hc]
    have ih := splitOnChar_of_no_sep sep cs
      (fun x hx => h x (List.mem_cons_of_mem c hx))
    simp [splitOnChar, hb, ih]

theorem splitOnChar_word_sep (sep : Char) :
    ∀ w r : PyStr, (∀ c ∈ w, c ≠ sep) →
      splitOnChar sep (w ++ sep :: r) = w :: splitOnChar sep r
  | [], r, _ => by simp [splitOnChar]
  | c :: cs, r, h => by
    have hc : c ≠ sep := h c (List.mem_cons_self c cs)
    have hb : (c == sep) = false := by simp [hc]
    have ih := splitOnChar_word_sep sep cs r
      (fun x hx => h x (List.mem_cons_of_mem c hx))
    simp [splitOnChar, hb, ih]

theorem split_join (sep : Char) :
    ∀ l : List PyStr, l ≠ [] → (∀ m ∈ l, ∀ c ∈ m, c ≠ sep) →
      splitOnChar sep (joinChar sep l) = l
  | [], hne, _ => absurd rfl hne
  | [x], _, h => by
    simp [joinChar, splitOnChar_of_no_sep sep x (h x (List.mem_singleton_self x))]
  | x :: y :: rest, _, h => by
    have hx : ∀ c ∈ x, c ≠ sep := h x (List.mem_cons_self x (y :: rest))
    have ih := split_join sep (y :: rest) (List.cons_ne_nil y rest)
      (fun m hm => h m (List.mem_cons_of_mem x hm))
    calc splitOnChar sep (joinChar sep (x :: y :: rest))
        = splitOnChar sep (x ++ sep :: joinChar sep (y :: rest)) := rfl
      _ = x :: splitOnChar sep (joinChar sep (y :: rest)) :=
          splitOnChar_word_sep sep x _ hx
      _ = x :: y :: rest := by rw [ih]

theorem dropWhile_cons_prop {α : Type} {p : α → Bool} :
    ∀ (s : List α) (d : α) (r : List α),
      s.dropWhile p = d :: r → p d = false ∧ d ∈ s
  | [], d, r, h => by simp [List.dropWhile] at h
  | c :: cs, d, r, h => by
    by_cases hc : p c
    · have h' : cs.dropWhile p = d :: r := by
        simpa [List.dropWhile, hc] using h
      exact ⟨(dropWhile_cons_prop cs d r h').1,
        List.mem_cons_of_mem c (dropWhile_cons_prop cs d r h').2⟩
    · have hb : p c = false := by simpa using hc
      have h' : c :: cs = d :: r := by simpa [List.dropWhile, hb] using h
      cases h'
      exact ⟨hb, List.mem_cons_self _ _⟩

/-! ## C3: move-list round trip through the delimited storage string -/

/-- C3 (amended): joining the move list with the comma delimiter at
ingestion and splitting it back at formatting reproduces the original
move list exactly, provided the list is nonempty and no move token
contains the delimiter character. -/
theorem moves_roundtrip (l : List PyStr) (hne : l ≠ [])
    (hsep : ∀ m ∈ l, ',' ∉ m) :
    displayed_moves (stored_moves l) = l := by
  refine split_join ',' l hne ?_
  intro m hm c hc hceq
  exact hsep m hm (hceq ▸ hc)

/-- Witness for `moves_roundtrip` at the spec's own example list. -/
theorem moves_roundtrip_witness :
    (["e4".toList, "e5".toList, "Nf3".toList] ≠ [] ∧
      ∀ m ∈ ["e4".toList, "e5".toList, "Nf3".toList], ',' ∉ m) ∧
    displayed_moves (stored_moves ["e4".toList, "e5".toList, "Nf3".toList]) =
      ["e4".toList, "e5".toList, "Nf3".toList] :=
  ⟨⟨by decide, by decide⟩, moves_roundtrip _ (by decide) (by decide)⟩

/-- C3 counterexample, both failing cases of the universal claim: a move
token containing the delimiter is silently split apart, and the empty
move list round-trips to a one-element list holding the empty string
(`','.join([])` is `''` and `''.split(',')` is `['']`) — in neither case
does the code fail or escape, it just returns a different move list. -/
theorem moves_roundtrip_silent_corruption :
    (displayed_moves (stored_moves ["e,4".toList]) =
        ["e".toList, "4".toList] ∧
      ["e".toList, "4".toList] ≠ ["e,4".toList]) ∧
    (displayed_moves (stored_moves ([] : List PyStr)) = [([] : PyStr)] ∧
      [([] : PyStr)] ≠ ([] : List PyStr)) :=
  ⟨⟨by decide, by decide⟩, ⟨by decide, by decide⟩⟩

/-! ## C4: name parsing -/

/-- C4 (amended): `__parse_player_name` splits on every comma, not only
the first: `last_name` is the trimmed segment before the first comma,
and `first_name` is the trimmed segment between the first and the second
comma when a comma exists (text after a second comma is dropped), else
the empty string.  Every input produces a result; none is an error. -/
theorem parse_player_name_splits_every_comma (s : PyStr) :
    parse_player_name s =
      { first_name :=
          if s.any (fun c => c == ',') then
            strip (((s.dropWhile (fun c => c != ',')).tail).takeWhile
              (fun c => c != ','))
          else [],
        last_name := strip (s.takeWhile (fun c => c != ',')) } := by
  cases hdw : s.dropWhile (fun c => c != ',') with
  | nil =>
    have hall : ∀ x ∈ s, (x != ',') = true :=
      (List.dropWhile_eq_nil_iff).mp hdw
    have hany : s.any (fun c => c == ',') = false := by
      simp only [List.any_eq_false]
      intro x hx
      simpa using hall x hx
    rw [parse_player_name, splitOnChar_no_sep_case ',' s hdw]
    simp [hany]
  | cons d r =>
    have hd := dropWhile_cons_prop s d r hdw
    have hany : s.any (fun c => c == ',') = true := by
      refine List.any_eq_true.mpr ⟨d, hd.2, ?_⟩
      have hne : (d != ',') = false := hd.1
      simpa using hne
    obtain ⟨rest, hrest⟩ := splitOnChar_head ',' r
    rw [parse_player_name, splitOnChar_sep_case ',' s d r hdw, hrest]
    simp [hany, hdw]

/-- C4 counterexample: with two commas in the input, everything after the
second comma is dropped, so the text after the first comma does not
become `first_name` verbatim. -/
theorem parse_player_name_two_commas :
    parse_player_name "Smith, John, Jr".toList =
      { first_name := "John".toList, last_name := "Smith".toList } ∧
    "John".toList ≠ "John, Jr".toList :=
  ⟨by decide, by decide⟩

/-! ## C2 and C7: color resolution -/

/-- C2: with two black-colored pairings the source raises no error at
all — `__unparse_players_with_color` falls through both branches and
returns the empty dict, exactly the incomplete mapping the claim rules
out. -/
theorem unparse_both_black_returns_empty_dict :
    unparse_players_with_color bothBlackPairings [karpov, kasparov] 1 =
      some { white := none, black := none } := by decide

/-- C7: when the two pairings of a game carry distinct colors, whichever
player's pairing is white lands in the white slot, for either order of
the player array. -/
theorem unparse_color_resolution_order_independent
    (db : List Pairing) (pA pB : Player) (gid : Nat) (prA prB : Pairing)
    (hA : pairingFirst db pA.id gid = some prA) (hAw : prA.color = whiteTag)
    (hB : pairingFirst db pB.id gid = some prB) (hBb : prB.color = blackTag) :
    unparse_players_with_color db [pA, pB] gid =
      some { white := some pA, black := some pB } ∧
    unparse_players_with_color db [pB, pA] gid =
      some { white := some pA, black := some pB } := by
  have hBw : ¬ prB.color = whiteTag := by
    rw [hBb]; decide
  constructor
  · simp [unparse_players_with_color, hA, hAw]
  · simp [unparse_players_with_color, hB, hBw, hA, hAw]

/-- Witness for `unparse_color_resolution_order_independent` on the
example pairing table. -/
theorem unparse_color_resolution_order_independent_witness :
    unparse_players_with_color examplePairings [karpov, kasparov] 1 =
      some { white := some karpov, black := some kasparov } ∧
    unparse_players_with_color examplePairings [kasparov, karpov] 1 =
      some { white := some karpov, black := some kasparov } :=
  unparse_color_resolution_order_independent examplePairings karpov kasparov 1
    { game_id := 1, player_id := 1, color := whiteTag }
    { game_id := 1, player_id := 2, color := blackTag }
    (by decide) rfl (by decide) rfl

/-! ## C6: the name filter criterion -/

/-- C6 counterexample: the criterion value `"Kasp"` is a case-insensitive
substring of the black player's full name, yet the filter rejects the
game, because the source lowercases only the player names and compares
the criterion verbatim. -/
theorem game_match_uppercase_criterion_fails :
    game_match examplePairings exampleGameRec
      { name := some "Kasp".toList, eco := none } = some false ∧
    pyContains (lower "Kasp".toList) (lower (full_name kasparov)) = true :=
  ⟨by decide, by decide⟩

/-- C6 (amended): the name criterion is satisfied exactly when the
criterion value, taken verbatim, is a substring of one of the two
lowercased full display names — case-insensitive in the game's names but
not in the criterion value. -/
theorem game_match_name_substring_of_lowered (db : List Pairing)
    (g : GameRec) (n : PyStr) (w b : Player)
    (hres : unparse_players_with_color db g.players g.id =
      some { white := some w, black := some b }) :
    game_match db g { name := some n, eco := none } =
      some (pyContains n (lower (full_name w)) ||
        pyContains n (lower (full_name b))) := by
  simp only [game_match, hres, eco_match]
  cases hw : pyContains n (lower (full_name w)) <;>
    cases hb : pyContains n (lower (full_name b)) <;> simp

/-- Witness for `game_match_name_substring_of_lowered`: the spec's
lowercase `"kasp"` example accepts the Karpov–Kasparov game. -/
theorem game_match_name_substring_of_lowered_witness :
    unparse_players_with_color examplePairings exampleGameRec.players
        exampleGameRec.id =
      some { white := some karpov, black := some kasparov } ∧
    game_match examplePairings exampleGameRec
        { name := some "kasp".toList, eco := none } =
      some (pyContains "kasp".toList (lower (full_name karpov)) ||
        pyContains "kasp".toList (lower (full_name kasparov))) :=
  ⟨by decide, game_match_name_substring_of_lowered examplePairings
    exampleGameRec ("kasp".toList) karpov kasparov (by decide)⟩

/-! ## C1: the dict/json branch of `format_game` -/

/-- C1 counterexample: on a game stored with move string `"e4,e5"`, the
dict branch puts the delimited storage string itself under `moves`, not
the split move sequence. -/
theorem format_game_dict_moves_is_delimited_string :
    (format_game examplePairings exampleGameRec dictTag).map Prod.fst =
      some (FormatResult.dict
        { event := "WCh".toList, site := "Moscow".toList,
          date := "1985".toList, round := "16".toList,
          white_elo := "2720".toList, black_elo := "2700".toList,
          white := full_name karpov, black := full_name kasparov,
          moves := MovesField.strv "e4,e5".toList,
          eco := "C65".toList }) ∧
    MovesField.strv "e4,e5".toList ≠
      MovesField.listv (displayed_moves "e4,e5".toList) :=
  ⟨by decide, by decide⟩

/-- C1 (amended): the dict/json branch returns the flat mapping with
exactly the keys event, site, date, round, white_elo, black_elo, white,
black, moves, eco, where white and black are the players' formatted full
display names — but the value under moves is the delimited storage
string exactly as stored, not the split move sequence. -/
theorem format_game_dict_fields (db : List Pairing) (g : GameRec)
    (rt : PyStr) (w b : Player)
    (hres : unparse_players_with_color db g.players g.id =
      some { white := some w, black := some b })
    (hrt : rt = dictTag ∨ rt = jsonTag) :
    format_game db g rt =
      some (FormatResult.dict
        { event := g.event, site := g.site, date := g.date,
          round := g.match_round, white_elo := g.white_elo,
          black_elo := g.black_elo, white := full_name w,
          black := full_name b, moves := g.moves, eco := g.eco },
        { g with white := some (full_name w),
                 black := some (full_name b) }) := by
  simp only [format_game, hres]
  rw [if_pos hrt]

/-- Witness for `format_game_dict_fields` on the example game. -/
theorem format_game_dict_fields_witness :
    (unparse_players_with_color examplePairings exampleGameRec.players
        exampleGameRec.id =
      some { white := some karpov, black := some kasparov } ∧
      (dictTag = dictTag ∨ dictTag = jsonTag)) ∧
    format_game examplePairings exampleGameRec dictTag =
      some (FormatResult.dict
        { event := exampleGameRec.event, site := exampleGameRec.site,
          date := exampleGameRec.date, round := exampleGameRec.match_round,
          white_elo := exampleGameRec.white_elo,
          black_elo := exampleGameRec.black_elo,
          white := full_name karpov, black := full_name kasparov,
          moves := exampleGameRec.moves, eco := exampleGameRec.eco },
        { exampleGameRec with white := some (full_name karpov),
                              black := some (full_name kasparov) }) :=
  ⟨⟨by decide, Or.inl rfl⟩,
    format_game_dict_fields examplePairings exampleGameRec dictTag
      karpov kasparov (by decide) (Or.inl rfl)⟩

/-! ## C10: the pgn branch of `format_game` mutates the record -/

/-- C10: the pgn branch rebinds `moves` to the split move list, assigns
the white/black display names, the round/elo aliases and the seven
empty placeholder fields on the record itself, so the record it leaves
behind differs from the input and no longer satisfies the stored-form
invariant. -/
theorem format_game_pgn_mutates_record (db : List Pairing) (g : GameRec)
    (m : PyStr) (w b : Player)
    (hm : g.moves = MovesField.strv m)
    (hres : unparse_players_with_color db g.players g.id =
      some { white := some w, black := some b }) :
    format_game db g pgnTag =
      some (FormatResult.pgnRec (pgn_ready g m w b), pgn_ready g m w b) ∧
    stored_form (pgn_ready g m w b) = false ∧
    pgn_ready g m w b ≠ g := by
  have hrt : ¬ ((pgnTag : PyStr) = dictTag ∨ (pgnTag : PyStr) = jsonTag) := by
    decide
  refine ⟨?_, ?_, ?_⟩
  · simp only [format_game, hres]
    rw [if_neg hrt]
    simp [hm, pgn_ready, displayed_moves]
  · simp [stored_form, pgn_ready]
  · intro h
    have hmv := congrArg GameRec.moves h
    rw [hm] at hmv
    simp [pgn_ready] at hmv

/-- Witness for `format_game_pgn_mutates_record` on the example game. -/
theorem format_game_pgn_mutates_record_witness :
    (exampleGameRec.moves = MovesField.strv "e4,e5".toList ∧
      unparse_players_with_color examplePairings exampleGameRec.players
          exampleGameRec.id =
        some { white := some karpov, black := some kasparov }) ∧
    (format_game examplePairings exampleGameRec pgnTag =
      some (FormatResult.pgnRec
        (pgn_ready exampleGameRec "e4,e5".toList karpov kasparov),
        pgn_ready exampleGameRec "e4,e5".toList karpov kasparov) ∧
    stored_form (pgn_ready exampleGameRec "e4,e5".toList karpov kasparov) =
      false ∧
    pgn_ready exampleGameRec "e4,e5".toList karpov kasparov ≠
      exampleGameRec) :=
  ⟨⟨rfl, by decide⟩,
    format_game_pgn_mutates_record examplePairings exampleGameRec
      ("e4,e5".toList) karpov kasparov rfl (by decide)⟩

/-! ## C5: player identity dedup across a batch -/

theorem name_not_in_of_player_in_db_none (db : DB) (nd : NameDict)
    (h : player_in_db db nd = none) :
    (nd.first_name, nd.last_name) ∉ playerNames db := by
  intro hmem
  simp only [playerNames, List.mem_map] at hmem
  obtain ⟨p, hp, hpair⟩ := hmem
  have hf : p.first_name = nd.first_name := congrArg Prod.fst hpair
  have hl : p.last_name = nd.last_name := congrArg Prod.snd hpair
  have hfil : p ∈ db.players.filter (fun q =>
      q.first_name == nd.first_name && q.last_name == nd.last_name) := by
    refine List.mem_filter.mpr ⟨hp, ?_⟩
    simp [hf, hl]
  have hne : db.players.filter (fun q =>
      q.first_name == nd.first_name && q.last_name == nd.last_name) ≠ [] :=
    List.ne_nil_of_mem hfil
  rw [player_in_db, Option.map_eq_none'] at h
  exact hne (List.head?_eq_none_iff.mp h)

theorem playerNames_addPlayerRow (db : DB) (nd : NameDict) :
    playerNames (addPlayerRow db nd) =
      playerNames db ++ [(nd.first_name, nd.last_name)] := by
  simp [playerNames, addPlayerRow]

theorem nodup_append_singleton {α : Type} {l : List α} {a : α}
    (h1 : l.Nodup) (h2 : a ∉ l) : (l ++ [a]).Nodup := by
  simp [List.nodup_append, h1, h2]

theorem namedict_pair_ne {wp bp : NameDict} (h : wp ≠ bp) :
    (wp.first_name, wp.last_name) ≠ (bp.first_name, bp.last_name) := by
  intro hpair
  apply h
  cases wp
  cases bp
  simp only [Prod.mk.injEq] at hpair
  simp [hpair.1, hpair.2]

theorem add_players_nodup (db : DB) (white black : PyStr)
    (h0 : (playerNames db).Nodup)
    (hne : parse_player_name white ≠ parse_player_name black) :
    (playerNames (add_players db white black).fst).Nodup := by
  rw [add_players]
  cases hw : player_in_db db (parse_player_name white) with
  | some i =>
    cases hb : player_in_db db (parse_player_name black) with
    | some j => simpa [hw, hb]
    | none =>
      have hbn := name_not_in_of_player_in_db_none db
        (parse_player_name black) hb
      simpa [hw, hb, playerNames_addPlayerRow] using
        nodup_append_singleton h0 hbn
  | none =>
    have hwn := name_not_in_of_player_in_db_none db
      (parse_player_name white) hw
    cases hb : player_in_db db (parse_player_name black) with
    | some j =>
      simpa [hw, hb, playerNames_addPlayerRow] using
        nodup_append_singleton h0 hwn
    | none =>
      have hbn := name_not_in_of_player_in_db_none db
        (parse_player_name black) hb
      have h1 : (playerNames db ++
          [((parse_player_name white).first_name,
            (parse_player_name white).last_name)]).Nodup :=
        nodup_append_singleton h0 hwn
      have h2 : ((parse_player_name black).first_name,
          (parse_player_name black).last_name) ∉
            playerNames db ++
              [((parse_player_name white).first_name,
                (parse_player_name white).last_name)] := by
        intro hmem
        rcases List.mem_append.mp hmem with hmem | hmem
        · exact hbn hmem
        · have := List.mem_singleton.mp hmem
          exact namedict_pair_ne (Ne.symm hne) this
      simpa [hw, hb, playerNames_addPlayerRow] using
        nodup_append_singleton h1 h2

theorem add_games_step_playerNames (db : DB) (g : ParsedGame) :
    playerNames (add_games_step db g) =
      playerNames (add_players db g.white g.black).fst := by
  simp [add_games_step, add_game, add_pairings, playerNames]

/-- C5 (amended): across a batch, at most one Player row exists per
distinct trimmed (first,last) pair — provided no single game's white and
black slots parse to the same (first,last) pair.  (When one does, the
two lookups both run before either insert and two rows are created; see
the counterexample.) -/
theorem add_games_at_most_one_player_row (db : DB)
    (games : List ParsedGame)
    (h0 : (playerNames db).Nodup)
    (hgames : ∀ g ∈ games,
      parse_player_name g.white ≠ parse_player_name g.black) :
    (playerNames (add_games db games)).Nodup := by
  induction games generalizing db with
  | nil => simpa [add_games]
  | cons g rest ih =>
    have hstep : add_games db (g :: rest) =
        add_games (add_games_step db g) rest := rfl
    rw [hstep]
    refine ih (add_games_step db g) ?_ ?_
    · rw [add_games_step_playerNames]
      exact add_players_nodup db g.white g.black h0
        (hgames g (List.mem_cons_self g rest))
    · exact fun g' hg' => hgames g' (List.mem_cons_of_mem g hg')

/-- Witness for `add_games_at_most_one_player_row`: a two-game batch
repeating the name `"Smith, John"` ends with a duplicate-free player
table. -/
theorem add_games_at_most_one_player_row_witness :
    ((playerNames DB.empty).Nodup ∧
      ∀ g ∈ [batchGame1, batchGame2],
        parse_player_name g.white ≠ parse_player_name g.black) ∧
    (playerNames (add_games DB.empty [batchGame1, batchGame2])).Nodup :=
  ⟨⟨by decide, by decide⟩,
    add_games_at_most_one_player_row DB.empty [batchGame1, batchGame2]
      (by decide) (by decide)⟩

/-- C5 counterexample: one game whose white and black slots carry the
same name creates two Player rows with identical (first,last) pairs,
because both lookups run before either insert. -/
theorem add_games_duplicate_rows_for_self_paired :
    playerNames (add_games DB.empty [selfPairedGame]) =
      [("John".toList, "Smith".toList), ("John".toList, "Smith".toList)] ∧
    ¬ (playerNames (add_games DB.empty [selfPairedGame])).Nodup :=
  ⟨by decide, by decide⟩

/-! ## C8: failure propagation and the three separate commits -/

/-- Sanity check: with no injected failure, the failure-aware runner
agrees with `add_games`. -/
theorem add_games_f_no_failure (db : DB) :
    ∀ gs : List ParsedGame,
      add_games_f (FailSpec.mk true true true) db gs =
        Except.ok (add_games db gs) := by
  intro gs
  induction gs generalizing db with
  | nil => simp [add_games_f, add_games]
  | cons g rest ih =>
    have hstep : add_games db (g :: rest) =
        add_games (add_games_step db g) rest := rfl
    simp [add_games_f, add_games_step_f, hstep, ih, add_games_step]

/-- C8 (amended): any storage failure is propagated immediately and the
remainder of the batch is never processed. -/
theorem add_games_failure_aborts_batch (fs : FailSpec) (db : DB)
    (g : ParsedGame) (rest : List ParsedGame) (e : DB)
    (h : add_games_step_f fs db g = Except.error e) :
    add_games_f fs db (g :: rest) = Except.error e := by
  simp [add_games_f, h]

/-- Witness for `add_games_failure_aborts_batch`: a failing first commit
aborts a two-game batch at once, leaving the store untouched. -/
theorem add_games_failure_aborts_batch_witness :
    add_games_step_f (FailSpec.mk false true true) DB.empty batchGame1 =
      Except.error DB.empty ∧
    add_games_f (FailSpec.mk false true true) DB.empty
        [batchGame1, batchGame2] =
      Except.error DB.empty :=
  ⟨by rfl,
    add_games_failure_aborts_batch (FailSpec.mk false true true)
      DB.empty batchGame1 [batchGame2] DB.empty (by rfl)⟩

/-- C8 counterexample: the game-row commit of `__add_game` precedes the
pairing commit of `__add_pairings`, so a failure of the latter leaves a
state with the game row (and the players) committed but no pairings —
partial state remains observable while the error propagates. -/
theorem add_games_partial_commit_observable :
    add_games_f (FailSpec.mk true true false) DB.empty [batchGame1] =
      Except.error
        { players := [{ id := 1, first_name := "John".toList,
                        last_name := "Smith".toList },
                      { id := 2, first_name := "Jane".toList,
                        last_name := "Doe".toList }],
          games := [{ id := 1, event := "Open".toList, site := "X".toList,
                      date := "2020".toList, match_round := "1".toList,
                      result := "1-0".toList, white_elo := "2000".toList,
                      black_elo := "1900".toList, moves := "e4".toList,
                      eco := "B00".toList }],
          pairings := [], next_player_id := 3, next_game_id := 2 } := by
  rfl

/-! ## C9: constructor whitespace normalization -/

/-- Negation of the whitespace predicate, the word boundary test. -/
def nonWs (c : Char) : Bool := !isPyWs c

theorem splitNone_cons_ws (c : Char) (s : PyStr) (hc : isPyWs c = true) :
    splitNone (c :: s) = splitNone s := by
  simp [splitNone, splitNoneAux, hc]

theorem splitNone_lstrip (s : PyStr) : splitNone (lstrip s) = splitNone s := by
  induction s with
  | nil => rfl
  | cons c cs ih =>
    by_cases hc : isPyWs c
    · rw [lstrip, List.dropWhile_cons, if_pos hc]
      rw [show List.dropWhile isPyWs cs = lstrip cs from rfl, ih,
        splitNone_cons_ws c cs hc]
    · rw [lstrip, List.dropWhile_cons,
        if_neg (by simpa using hc)]

theorem allWs_cons (c : Char) (s : PyStr) :
    allWs (c :: s) = (isPyWs c && allWs s) := rfl

theorem splitNoneAux_allWs :
    ∀ (s acc : PyStr), allWs s = true →
      splitNoneAux s acc = if acc.isEmpty then [] else [acc.reverse]
  | [], acc, _ => rfl
  | c :: cs, acc, h => by
    have hc : isPyWs c = true := ((Bool.and_eq_true _ _).mp ((allWs_cons c cs) ▸ h)).1
    have hcs : allWs cs = true := ((Bool.and_eq_true _ _).mp ((allWs_cons c cs) ▸ h)).2
    by_cases ha : acc.isEmpty
    · simp [splitNoneAux, hc, ha, splitNoneAux_allWs cs [] hcs]
    · simp [splitNoneAux, hc, ha, splitNoneAux_allWs cs [] hcs]

theorem splitNone_allWs (s : PyStr) (h : allWs s = true) :
    splitNone s = [] := by
  simpa [splitNone] using splitNoneAux_allWs s [] h

theorem splitNoneAux_ne_nil_of_acc :
    ∀ (s acc : PyStr), acc.isEmpty = false → splitNoneAux s acc ≠ []
  | [], acc, ha => by simp [splitNoneAux, ha]
  | c :: cs, acc, ha => by
    by_cases hc : isPyWs c
    · simp [splitNoneAux, hc, ha]
    · simpa [splitNoneAux, hc] using
        splitNoneAux_ne_nil_of_acc cs (c :: acc) (by simp)

theorem splitNone_ne_nil :
    ∀ s : PyStr, allWs s = false → splitNone s ≠ []
  | [], h => by simp [allWs] at h
  | c :: cs, h => by
    by_cases hc : isPyWs c
    · have hcs : allWs cs = false := by
        by_contra hcon
        have h2 : allWs cs = true := Bool.eq_true_of_not_eq_false hcon
        rw [allWs_cons, hc, h2] at h
        simp at h
      rw [splitNone_cons_ws c cs hc]
      exact splitNone_ne_nil cs hcs
    · rw [splitNone, splitNoneAux]
      simp only [hc, if_false, Bool.false_eq_true, List.isEmpty_nil, if_true]
      exact splitNoneAux_ne_nil_of_acc cs [c] (by simp)

theorem splitNoneAux_acc :
    ∀ (s acc : PyStr), acc.isEmpty = false →
      splitNoneAux s acc =
        (acc.reverse ++ s.takeWhile nonWs) ::
          splitNone (s.dropWhile nonWs)
  | [], acc, ha => by
    simp [splitNoneAux, ha, splitNone, List.takeWhile, List.dropWhile]
  | c :: cs, acc, ha => by
    by_cases hc : isPyWs c
    · have hn : nonWs c = false := by simp [nonWs, hc]
      simp [splitNoneAux, hc, ha, List.takeWhile_cons, List.dropWhile_cons,
        hn, splitNone_cons_ws c cs hc, splitNone]
    · have hn : nonWs c = true := by simp [nonWs, hc]
      have hrec := splitNoneAux_acc cs (c :: acc) (by simp)
      simp [splitNoneAux, hc, hrec, List.takeWhile_cons, List.dropWhile_cons,
        hn, List.reverse_cons, List.append_assoc]

theorem splitNone_word (c : Char) (t : PyStr) (hc : isPyWs c = false) :
    splitNone (c :: t) =
      (c :: t.takeWhile nonWs) :: splitNone (t.dropWhile nonWs) := by
  rw [splitNone, splitNoneAux]
  simp only [hc, Bool.false_eq_true, if_false, List.isEmpty_nil]
  simpa using splitNoneAux_acc t [c] (by simp)

theorem joinChar_cons_of_ne_nil (sep : Char) (x : PyStr)
    (xs : List PyStr) (h : xs ≠ []) :
    joinChar sep (x :: xs) = x ++ sep :: joinChar sep xs := by
  cases xs with
  | nil => exact absurd rfl h
  | cons y ys => rfl

theorem rstrip_allWs : ∀ s : PyStr, allWs s = true → rstrip s = []
  | [], _ => rfl
  | c :: cs, h => by
    have hc : isPyWs c = true := ((Bool.and_eq_true _ _).mp ((allWs_cons c cs) ▸ h)).1
    have hcs : allWs cs = true := ((Bool.and_eq_true _ _).mp ((allWs_cons c cs) ▸ h)).2
    simp [rstrip, hc, hcs]

theorem rstrip_cons_of_not_allWs (c : Char) (s : PyStr)
    (h : allWs s = false) : rstrip (c :: s) = c :: rstrip s := by
  simp [rstrip, h]

theorem rstrip_cons_nonws_allWs (c : Char) (s : PyStr)
    (hc : isPyWs c = false) (h : allWs s = true) :
    rstrip (c :: s) = [c] := by
  simp [rstrip, hc, rstrip_allWs s h]

theorem rstrip_append_word :
    ∀ (w r : PyStr), (∀ c ∈ w, isPyWs c = false) →
      rstrip (w ++ r) = w ++ rstrip r
  | [], r, _ => rfl
  | c :: w', r, h => by
    have hc : isPyWs c = false := h c (List.mem_cons_self c w')
    have hrec := rstrip_append_word w' r
      (fun x hx => h x (List.mem_cons_of_mem c hx))
    simp [rstrip, hc, hrec]

theorem collapseWsAux_word :
    ∀ (w r : PyStr), (∀ c ∈ w, isPyWs c = false) →
      collapseWsAux (w ++ r) false = w ++ collapseWsAux r false
  | [], r, _ => rfl
  | c :: w', r, h => by
    have hc : isPyWs c = false := h c (List.mem_cons_self c w')
    simp [collapseWsAux, hc,
      collapseWsAux_word w' r (fun x hx => h x (List.mem_cons_of_mem c hx))]

theorem collapseWsAux_id (w : PyStr) (h : ∀ c ∈ w, isPyWs c = false) :
    collapseWsAux w false = w := by
  have := collapseWsAux_word w [] h
  simpa [collapseWsAux] using this

theorem collapse_rstrip_flag :
    ∀ x : PyStr, allWs x = false →
      collapseWsAux (rstrip x) true = collapseWsAux (rstrip (lstrip x)) false
  | [], h => by simp [allWs] at h
  | e :: x2, h => by
    by_cases he : isPyWs e
    · have hx2 : allWs x2 = false := by
        by_contra hcon
        have h2 : allWs x2 = true := Bool.eq_true_of_not_eq_false hcon
        have : allWs (e :: x2) = true := by simpa [allWs, he] using h2
        simp [this] at h
      rw [rstrip_cons_of_not_allWs e x2 hx2]
      have hl : lstrip (e :: x2) = lstrip x2 := by
        simp [lstrip, List.dropWhile_cons, he]
      rw [hl]
      simpa [collapseWsAux, he] using collapse_rstrip_flag x2 hx2
    · have hee : isPyWs e = false := by simpa using he
      have hl : lstrip (e :: x2) = e :: x2 := by
        simp [lstrip, List.dropWhile_cons, hee]
      rw [hl]
      cases hx2 : allWs x2 with
      | true =>
        rw [rstrip_cons_nonws_allWs e x2 hee hx2]
        simp [collapseWsAux, hee]
      | false =>
        rw [rstrip_cons_of_not_allWs e x2 hx2]
        simp [collapseWsAux, hee]

theorem collapse_rstrip_ws_head (d : Char) (r2 : PyStr)
    (hd : isPyWs d = true) (hr : allWs r2 = false) :
    collapseWsAux (rstrip (d :: r2)) false =
      '\n' :: collapseWsAux (rstrip (lstrip r2)) false := by
  rw [rstrip_cons_of_not_allWs d r2 hr]
  simpa [collapseWsAux, hd] using collapse_rstrip_flag r2 hr

theorem join_splitNone_eq_collapse :
    ∀ (n : Nat) (s : PyStr), s.length ≤ n →
      joinChar '\n' (splitNone s) = collapseWsAux (strip s) false := by
  intro n
  induction n with
  | zero =>
    intro s hs
    have hnil : s = [] := List.length_eq_zero.mp (Nat.le_zero.mp hs)
    subst hnil
    rfl
  | succ n ih =>
    intro s hs
    cases hls : lstrip s with
    | nil =>
      have h1 : splitNone s = [] := by
        rw [← splitNone_lstrip s, hls]
        rfl
      rw [h1, strip, hls]
      rfl
    | cons c t =>
      have hc : isPyWs c = false :=
        (dropWhile_cons_prop s c t hls).1
      have hwr : ∀ x ∈ c :: t.takeWhile nonWs, isPyWs x = false := by
        intro x hx
        rcases List.mem_cons.mp hx with hx | hx
        · exact hx ▸ hc
        · have := List.mem_takeWhile_imp hx
          simpa [nonWs] using this
      have hsplit : splitNone s =
          (c :: t.takeWhile nonWs) :: splitNone (t.dropWhile nonWs) := by
        rw [← splitNone_lstrip s, hls, splitNone_word c t hc]
      have hct : (c :: t) = (c :: t.takeWhile nonWs) ++ t.dropWhile nonWs := by
        simp [List.takeWhile_append_dropWhile]
      have hstrip : strip s =
          (c :: t.takeWhile nonWs) ++ rstrip (t.dropWhile nonWs) := by
        rw [strip, hls, hct, rstrip_append_word _ _ hwr]
      cases hall : allWs (t.dropWhile nonWs) with
      | true =>
        have hnil : splitNone (t.dropWhile nonWs) = [] :=
          splitNone_allWs _ hall
        rw [hsplit, hnil, hstrip, rstrip_allWs _ hall, List.append_nil]
        rw [show joinChar '\n' [c :: t.takeWhile nonWs] =
          c :: t.takeWhile nonWs from rfl]
        exact (collapseWsAux_id _ hwr).symm
      | false =>
        have hne : splitNone (t.dropWhile nonWs) ≠ [] :=
          splitNone_ne_nil _ hall
        rw [hsplit, joinChar_cons_of_ne_nil '\n' _ _ hne, hstrip,
          collapseWsAux_word _ _ hwr]
        congr 1
        obtain ⟨d, r2, hdr⟩ : ∃ d r2, t.dropWhile nonWs = d :: r2 := by
          cases hdw : t.dropWhile nonWs with
          | nil =>
            rw [hdw] at hall
            simp [allWs] at hall
          | cons d r2 => exact ⟨d, r2, rfl⟩
        have hd : isPyWs d = true := by
          have := (dropWhile_cons_prop t d r2 hdr).1
          simpa [nonWs] using this
        have hr2 : allWs r2 = false := by
          rw [hdr] at hall
          simpa [allWs, hd] using hall
        rw [hdr, collapse_rstrip_ws_head d r2 hd hr2,
          splitNone_cons_ws d r2 hd]
        congr 1
        have hlen : r2.length ≤ n := by
          have h1 : r2.length + 1 = (d :: r2).length := rfl
          have h2 : (d :: r2).length ≤ t.length := by
            rw [← hdr]
            exact (List.dropWhile_sublist (l := t) nonWs).length_le
          have h3 : t.length + 1 = (c :: t).length := rfl
          have h4 : (c :: t).length ≤ s.length := by
            rw [← hls]
            exact (List.dropWhile_sublist (l := s) isPyWs).length_le
          omega
        exact ih r2 hlen

/-- C9: with a raw pgn string and the delimiter left at `None`, the text
stored for the parser is the input with every maximal whitespace run
replaced by a single newline and leading/trailing whitespace dropped. -/
theorem init_pgn_collapses_whitespace (s : PyStr)
    (hs : s.isEmpty = false) :
    init_pgn (some s) = some (spec_ws_transform s) := by
  rw [init_pgn, if_neg (by simp [hs]), spec_ws_transform]
  exact congrArg some
    (join_splitNone_eq_collapse s.length s (Nat.le_refl _))

/-- Witness for `init_pgn_collapses_whitespace` on a sample input with
interior tabs and surrounding whitespace. -/
theorem init_pgn_collapses_whitespace_witness :
    (" a \t b \n c ".toList.isEmpty = false) ∧
    init_pgn (some " a \t b \n c ".toList) =
      some (spec_ws_transform " a \t b \n c ".toList) :=
  ⟨by decide, init_pgn_collapses_whitespace (" a \t b \n c ".toList)
    (by decide)⟩

end ChessPi
